import Mathlib

/-!
Shallow embedding of the bycycle repository's burst-classification module
(`bycycle/burst.py`) and group-orchestration module
(`bycycle/group/features.py`), with theorems settling the specification
claims about them.

Conventions: Python lists become `List`, pandas per-cycle feature tables
become a structure of row records plus an optional `is_burst` column,
floats become rationals, in-place mutation becomes explicit state passing
(the functions return the post-call state of their mutable arguments),
and a raised exception becomes `Except.error`.

The file is organised as a block of definitions (the embedding) followed by
a block of theorems (helper lemmas and the claim theorems).
-/

set_option autoImplicit false

namespace Bycycle

/-! ## Definitions -/

/-! ### burst.py: `_min_consecutive_cycles` -/

/-- Clear the `c` most recently appended flags of the reversed prefix `acc`:
the embedding of `for c_rm in range(temp_cycle_count): is_burst[idx - 1 - c_rm] = False`,
which writes `False` at the `c` positions directly before the current index. -/
def clearRun (c : Nat) (acc : List Bool) : List Bool :=
  List.replicate c false ++ acc.drop c

/-- State-machine core of `_min_consecutive_cycles`, translated from the
`for idx, bursting in enumerate(is_burst)` loop.  `acc` is the already
processed prefix in reverse order (all writes of the loop target only
indices strictly below the cursor, so the suffix still to be processed is
never modified before being read), and `c` is `temp_cycle_count`. -/
def minConsecutiveGo (min_n_cycles : Nat) : List Bool → List Bool → Nat → List Bool
  | [], acc, _ => acc.reverse
  | true :: rest, acc, c => minConsecutiveGo min_n_cycles rest (true :: acc) (c + 1)
  | false :: rest, acc, c =>
      if c < min_n_cycles then
        minConsecutiveGo min_n_cycles rest (false :: clearRun c acc) 0
      else
        minConsecutiveGo min_n_cycles rest (false :: acc) 0

/-- `_min_consecutive_cycles(is_burst, min_n_cycles)` from `bycycle/burst.py`:
walk the flag list; on a `False` flag, if the run of `True` flags that just
ended is shorter than `min_n_cycles`, retroactively clear that run.  The loop
has no end-of-sequence handling: a trailing run is returned as it stands. -/
def min_consecutive_cycles (is_burst : List Bool) (min_n_cycles : Nat) : List Bool :=
  minConsecutiveGo min_n_cycles is_burst [] 0

/-- Run-emitting reformulation of `minConsecutiveGo` used for proofs: instead
of writing the current run into the accumulator and retroactively clearing it,
the pending run (`c` flags, all `True`) is emitted only when its fate is known. -/
def minConsecutiveEmit (min_n_cycles c : Nat) : List Bool → List Bool
  | [] => List.replicate c true
  | true :: rest => minConsecutiveEmit min_n_cycles (c + 1) rest
  | false :: rest =>
      (if c < min_n_cycles then List.replicate c false else List.replicate c true) ++
        false :: minConsecutiveEmit min_n_cycles 0 rest

/-! ### Maximal true-runs of a boolean sequence -/

/-- Lengths of all maximal runs of consecutive `true` flags; `c` is the length
of the run still open on entry.  A run still open at the end of the sequence
(a trailing run) is reported as well. -/
def trueRunsAux : List Bool → Nat → List Nat
  | [], 0 => []
  | [], c + 1 => [c + 1]
  | true :: rest, c => trueRunsAux rest (c + 1)
  | false :: rest, 0 => trueRunsAux rest 0
  | false :: rest, c + 1 => (c + 1) :: trueRunsAux rest 0

/-- Lengths of all maximal runs of consecutive `true` flags, trailing run included. -/
def trueRuns (l : List Bool) : List Nat := trueRunsAux l 0

/-- Like `trueRunsAux`, but a run still open at the end of the sequence
(a trailing run) is not reported: only runs terminated by a `false` flag. -/
def closedRunsAux : List Bool → Nat → List Nat
  | [], _ => []
  | true :: rest, c => closedRunsAux rest (c + 1)
  | false :: rest, 0 => closedRunsAux rest 0
  | false :: rest, c + 1 => (c + 1) :: closedRunsAux rest 0

/-- Lengths of the maximal true-runs that are terminated by a `false` flag. -/
def closedRuns (l : List Bool) : List Nat := closedRunsAux l 0

/-! ### burst.py: the per-cycle feature table and the two burst detectors

A pandas feature table becomes a list of per-cycle records (the pre-existing
columns, with any further columns abstracted into the `others` field) together
with the optional `is_burst` column.  Float-valued measures become rationals.
In-place column assignment becomes a structure update on the returned value. -/

structure CycleRow (α : Type) where
  amp_fraction : ℚ
  amp_consistency : ℚ
  period_consistency : ℚ
  monotonicity : ℚ
  burst_fraction : ℚ
  others : α

structure DfFeatures (α : Type) where
  rows : List (CycleRow α)
  is_burst : Option (List Bool)

/-- The burst-candidate flags of `detect_bursts_cycles`: the conjunction of
the four strict threshold comparisons, then `is_burst[0] = False` and
`is_burst[-1] = False`, then the minimum-run pass, then the column
assignment `df_features['is_burst'] = ...`.

`is_burst` is a pandas Series carrying the table's default integer index
`0 .. n-1`.  `is_burst[0] = False` writes the existing label `0`, the first
cycle.  `is_burst[-1] = False`, however, does not write the last cycle:
`-1` is not a label of the integer index and integer indexes have no
positional fallback, so per pandas setting-with-enlargement semantics the
statement appends a new `False` entry under the label `-1`.  That phantom
entry is iterated last inside `_min_consecutive_cycles`, where it acts as a
`False` terminator after the true last cycle (clearing a short trailing run
that includes the last cycle), and is dropped again by the index alignment of
the column assignment.  Embedding: set index `0` to `false`, append the
phantom `false`, run the pass, keep only the first `n` flags. -/
def cyclesBurstSeq {α : Type} (rows : List (CycleRow α))
    (amp_fraction_threshold amp_consistency_threshold
      period_consistency_threshold monotonicity_threshold : ℚ)
    (min_n_cycles : Nat) : List Bool :=
  (min_consecutive_cycles
    ((rows.map fun r =>
      decide (amp_fraction_threshold < r.amp_fraction) &&
      decide (amp_consistency_threshold < r.amp_consistency) &&
      decide (period_consistency_threshold < r.period_consistency) &&
      decide (monotonicity_threshold < r.monotonicity)).set 0 false ++ [false])
    min_n_cycles).take rows.length

/-- `detect_bursts_cycles` from `bycycle/burst.py`: writes the `is_burst`
column of the table it was given and returns that table. -/
def detect_bursts_cycles {α : Type} (df_features : DfFeatures α)
    (amp_fraction_threshold amp_consistency_threshold
      period_consistency_threshold monotonicity_threshold : ℚ)
    (min_n_cycles : Nat) : DfFeatures α :=
  { df_features with
      is_burst := some (cyclesBurstSeq df_features.rows amp_fraction_threshold
        amp_consistency_threshold period_consistency_threshold
        monotonicity_threshold min_n_cycles) }

/-- The burst-candidate flags of `detect_bursts_amp`: the non-strict
`burst_fraction >= threshold` comparison, then the minimum-run pass. -/
def ampBurstSeq {α : Type} (rows : List (CycleRow α))
    (burst_fraction_threshold : ℚ) (min_n_cycles : Nat) : List Bool :=
  min_consecutive_cycles
    (rows.map fun r => decide (burst_fraction_threshold ≤ r.burst_fraction))
    min_n_cycles

/-- `detect_bursts_amp` from `bycycle/burst.py`. -/
def detect_bursts_amp {α : Type} (df_features : DfFeatures α)
    (burst_fraction_threshold : ℚ) (min_n_cycles : Nat) : DfFeatures α :=
  { df_features with
      is_burst := some (ampBurstSeq df_features.rows burst_fraction_threshold
        min_n_cycles) }

/-! ### group/features.py: configuration mappings

A Python keyword dictionary becomes an association list with unique keys;
`kwargs.pop('return_samples')` (performed only when the key is present)
becomes removal of that key's entry.  `compute_features_kwargs` is `None`,
a single dict, or a list of dicts (2-D), respectively `None`, a dict, a
1-D list of dicts or a 2-D list of dicts (3-D). -/

/-- A per-signal configuration mapping (a Python `dict` of keyword arguments,
keys unique). -/
abbrev Kwargs (V : Type) : Type := List (String × V)

/-- `compute_features_kwargs` as accepted by `compute_features_2d`. -/
abbrev Kwargs2d (V : Type) : Type := Option (Kwargs V ⊕ List (Kwargs V))

/-- `compute_features_kwargs` as accepted by `compute_features_3d`. -/
abbrev Kwargs3d (V : Type) : Type :=
  Option (Kwargs V ⊕ (List (Kwargs V) ⊕ List (List (Kwargs V))))

/-- Remove the reserved `return_samples` control key from a mapping (the
embedding of the guarded `kwargs.pop('return_samples')`). -/
def stripReturnSamples {V : Type} (d : Kwargs V) : Kwargs V :=
  d.filter (fun p => p.1 ≠ "return_samples")

/-- `np.shape(x)[1]` of a rectangular nested list. -/
def dim1 {β : Type} (l : List (List β)) : Nat := (l.head?.getD []).length

/-- The broadcast `[[kwarg]*np.shape(sigs)[1] for kwarg in kwargs]` followed by
`.flatten()`: each outer-dimension override is replicated `s` times, giving the
flat per-signal configuration sequence. -/
def broadcast1d {K : Type} (kwargs : List K) (s : Nat) : List K :=
  (kwargs.map fun k => List.replicate s k).flatten

/-- Python `range(start, stop, step)` for a positive step. -/
def pyRange (start stop step : Nat) : List Nat :=
  List.range' start ((stop - start + step - 1) / step) step

/-- Python slice `l[lower:upper]`. -/
def pySlice {β : Type} (l : List β) (lower upper : Nat) : List β :=
  (l.drop lower).take (upper - lower)

/-- `_reshape_df(df_features, sigs_3d)` from `bycycle/group/features.py`,
with `dim_b = np.shape(sigs_3d)[1]` already extracted: builds the index lists
`max_idx = range(dim_b, len(df_features)*dim_b, dim_b)` and
`min_idx = range(0, len(df_features), dim_b)`, zips them (Python `zip`
truncates to the shorter list) and appends the slice for each pair. -/
def reshape_df {β : Type} (df_features : List β) (dim_b : Nat) : List (List β) :=
  let max_idx := pyRange dim_b (df_features.length * dim_b) dim_b
  let min_idx := pyRange 0 df_features.length dim_b
  (min_idx.zip max_idx).map fun p => pySlice df_features p.1 p.2

/-- Observable outcome of a `compute_features_2d` call: the returned value (or
the raised error), the `(return_samples, kwargs)` argument pairs actually
handed to the `compute_features` collaborator in submission order, and the
post-call state of the two caller-owned arguments (`compute_features_kwargs`
dicts are popped in place; `sigs` is never written). -/
structure Dispatch2d (σ ρ V : Type) where
  result : Except String (List ρ)
  calls : List (Bool × Kwargs V)
  kwargsAfter : Kwargs2d V
  sigsAfter : List σ

/-- `compute_features_2d` from `bycycle/group/features.py`.  `compute` is the
external single-signal routine `compute_features` with `fs`/`f_range` already
applied; it receives the signal, the `return_samples` flag set at this call
site, and the per-signal keyword mapping.  The list-length validation precedes
the `return_samples` stripping, which precedes dispatch. -/
def compute_features_2d {σ ρ V : Type} (compute : σ → Bool → Kwargs V → ρ)
    (sigs : List σ) (return_samples : Bool)
    (compute_features_kwargs : Kwargs2d V) : Dispatch2d σ ρ V :=
  match compute_features_kwargs with
  | some (Sum.inr kwlist) =>
      if kwlist.length ≠ sigs.length then
        { result := Except.error "When compute_features_kwargs is a list, its length must be equal to sigs"
          calls := []
          kwargsAfter := some (Sum.inr kwlist)
          sigsAfter := sigs }
      else
        let stripped := kwlist.map stripReturnSamples
        { result := Except.ok ((sigs.zip stripped).map fun p => compute p.1 return_samples p.2)
          calls := (sigs.zip stripped).map fun p => (return_samples, p.2)
          kwargsAfter := some (Sum.inr stripped)
          sigsAfter := sigs }
  | some (Sum.inl d) =>
      let d' := stripReturnSamples d
      { result := Except.ok (sigs.map fun s => compute s return_samples d')
        calls := sigs.map fun _ => (return_samples, d')
        kwargsAfter := some (Sum.inl d')
        sigsAfter := sigs }
  | none =>
      { result := Except.ok (sigs.map fun s => compute s return_samples [])
        calls := sigs.map fun _ => (return_samples, ([] : Kwargs V))
        kwargsAfter := none
        sigsAfter := sigs }

/-- Observable outcome of a `compute_features_3d` call. -/
structure Dispatch3d (σ ρ V : Type) where
  result : Except String (List (List ρ))
  calls : List (Bool × Kwargs V)
  kwargsAfter : Kwargs3d V
  sigsAfter : List (List σ)

/-- `compute_features_3d` from `bycycle/group/features.py`: validates the
override shape against `np.shape(sigs)`, flattens `sigs` to 2-D (row-major
`reshape`), broadcasts a 1-D override along the second dimension and flattens
a 2-D override, delegates to `compute_features_2d`, and refolds the flat
result list with `_reshape_df`.  The caller's dict objects are shared through
the conversion to `np.array`, so the `return_samples` pops performed inside
`compute_features_2d` are visible in the caller's nested override (they happen
only if no error was raised, since both validations precede the pops). -/
def compute_features_3d {σ ρ V : Type} (compute : σ → Bool → Kwargs V → ρ)
    (sigs : List (List σ)) (return_samples : Bool)
    (compute_features_kwargs : Kwargs3d V) : Dispatch3d σ ρ V :=
  match compute_features_kwargs with
  | some (Sum.inr (Sum.inl kw1)) =>
      if kw1.length ≠ sigs.length then
        { result := Except.error "When compute_features_kwargs is a 1d list, its length must be equal to the first dimension of sigs"
          calls := []
          kwargsAfter := some (Sum.inr (Sum.inl kw1))
          sigsAfter := sigs }
      else
        let flat := broadcast1d kw1 (dim1 sigs)
        let r := compute_features_2d compute sigs.flatten return_samples (some (Sum.inr flat))
        { result := r.result.map fun lst => reshape_df lst (dim1 sigs)
          calls := r.calls
          kwargsAfter :=
            match r.result with
            | Except.error _ => some (Sum.inr (Sum.inl kw1))
            | Except.ok _ => some (Sum.inr (Sum.inl (kw1.map stripReturnSamples)))
          sigsAfter := sigs }
  | some (Sum.inr (Sum.inr kw2d)) =>
      if kw2d.length ≠ sigs.length ∨ dim1 kw2d ≠ dim1 sigs then
        { result := Except.error "When compute_features_kwargs is a 2d list, its shape must be equal to the shape of the first two dimensions of sigs"
          calls := []
          kwargsAfter := some (Sum.inr (Sum.inr kw2d))
          sigsAfter := sigs }
      else
        let r := compute_features_2d compute sigs.flatten return_samples
          (some (Sum.inr kw2d.flatten))
        { result := r.result.map fun lst => reshape_df lst (dim1 sigs)
          calls := r.calls
          kwargsAfter :=
            match r.result with
            | Except.error _ => some (Sum.inr (Sum.inr kw2d))
            | Except.ok _ => some (Sum.inr (Sum.inr (kw2d.map fun row => row.map stripReturnSamples)))
          sigsAfter := sigs }
  | some (Sum.inl d) =>
      let r := compute_features_2d compute sigs.flatten return_samples (some (Sum.inl d))
      { result := r.result.map fun lst => reshape_df lst (dim1 sigs)
        calls := r.calls
        kwargsAfter := some (Sum.inl (stripReturnSamples d))
        sigsAfter := sigs }
  | none =>
      let r := compute_features_2d compute sigs.flatten return_samples (some (Sum.inl []))
      { result := r.result.map fun lst => reshape_df lst (dim1 sigs)
        calls := r.calls
        kwargsAfter := none
        sigsAfter := sigs }

/-- The `return_samples` stripping applied to a whole 2-D override (the
post-call state of a successfully dispatched `compute_features_kwargs`). -/
def stripKwargs2d {V : Type} : Kwargs2d V → Kwargs2d V :=
  Option.map (Sum.map stripReturnSamples (List.map stripReturnSamples))

/-- The `return_samples` stripping applied to a whole 3-D override. -/
def stripKwargs3d {V : Type} : Kwargs3d V → Kwargs3d V :=
  Option.map (Sum.map stripReturnSamples
    (Sum.map (List.map stripReturnSamples) (List.map (List.map stripReturnSamples))))

/-! ### The process pool's ordered dispatch

`compute_features_2d` distributes one task per signal over a worker pool via
the pool's order-preserving map (`imap`, an external collaborator).  Its
collection semantics is modelled explicitly: tasks are submitted in input
order, workers complete them in an arbitrary order `sched` (any permutation of
the submission indices), and each completion stores its result in the slot of
its submission index; the call returns the slots in submission order. -/

/-- Process the completions listed in `sched`: completion of task `i` writes
`f tasks[i]` into slot `i`. -/
def runSched {A B : Type} (f : A → B) (tasks : List A) :
    List Nat → List (Option B) → List (Option B)
  | [], slots => slots
  | i :: rest, slots => runSched f tasks rest (slots.set i (tasks[i]?.map f))

/-- The ordered-collection parallel map: slots start empty and are filled as
workers finish, in completion order `sched`. -/
def dispatchOrdered {A B : Type} (f : A → B) (tasks : List A) (sched : List Nat) :
    List (Option B) :=
  runSched f tasks sched (List.replicate tasks.length none)

/-! ## Theorems -/

/-! ### The two renderings of `_min_consecutive_cycles` agree -/

theorem minConsecutiveGo_eq_emit (m : Nat) :
    ∀ (l : List Bool) (c : Nat) (tail : List Bool),
      minConsecutiveGo m l (List.replicate c true ++ tail) c =
        tail.reverse ++ minConsecutiveEmit m c l := by
  intro l
  induction l with
  | nil =>
      intro c tail
      simp [minConsecutiveGo, minConsecutiveEmit, List.reverse_append]
  | cons b rest ih =>
      intro c tail
      cases b with
      | true =>
          have h : (true :: (List.replicate c true ++ tail)) =
              List.replicate (c + 1) true ++ tail := by
            simp [List.replicate_succ]
          simp only [minConsecutiveGo, minConsecutiveEmit]
          rw [h, ih (c + 1) tail]
      | false =>
          simp only [minConsecutiveGo, minConsecutiveEmit]
          by_cases hc : c < m
          · have hclear : clearRun c (List.replicate c true ++ tail) =
                List.replicate c false ++ tail := by
              simp [clearRun, List.drop_append_eq_append_drop]
            have h : (false :: (List.replicate c false ++ tail)) =
                List.replicate 0 true ++ (false :: (List.replicate c false ++ tail)) := by
              simp
            rw [if_pos hc, if_pos hc, hclear, h, ih 0 _]
            simp [List.reverse_append]
          · have h : (false :: (List.replicate c true ++ tail)) =
                List.replicate 0 true ++ (false :: (List.replicate c true ++ tail)) := by
              simp
            rw [if_neg hc, if_neg hc, h, ih 0 _]
            simp [List.reverse_append]

theorem min_consecutive_cycles_eq_emit (l : List Bool) (m : Nat) :
    min_consecutive_cycles l m = minConsecutiveEmit m 0 l := by
  have h := minConsecutiveGo_eq_emit m l 0 []
  simpa [min_consecutive_cycles] using h

/-! ### Runs in the output of the minimum-run pass -/

theorem closedRunsAux_replicate_true (t : List Bool) :
    ∀ (k j : Nat), closedRunsAux (List.replicate k true ++ t) j = closedRunsAux t (j + k) := by
  intro k
  induction k with
  | zero => intro j; simp
  | succ n ih =>
      intro j
      have : (j + 1) + n = j + (n + 1) := by omega
      simp only [List.replicate_succ, List.cons_append, closedRunsAux, List.append_eq,
        ih (j + 1), this]

theorem closedRunsAux_replicate_false (t : List Bool) :
    ∀ (k : Nat), closedRunsAux (List.replicate k false ++ false :: t) 0 = closedRunsAux t 0 := by
  intro k
  induction k with
  | zero => simp [closedRunsAux]
  | succ n ih => simp only [List.replicate_succ, List.cons_append, closedRunsAux,
      List.append_eq, ih]

/-- Every run terminated by a `false` in the output of the minimum-run pass
has length at least `min_n_cycles`. -/
theorem closedRuns_emit_ge (m : Nat) :
    ∀ (l : List Bool) (c : Nat) (r : Nat),
      r ∈ closedRunsAux (minConsecutiveEmit m c l) 0 → m ≤ r := by
  intro l
  induction l with
  | nil =>
      intro c r hr
      rw [show minConsecutiveEmit m c [] = List.replicate c true ++ ([] : List Bool) by
            simp [minConsecutiveEmit]] at hr
      rw [closedRunsAux_replicate_true] at hr
      simp [closedRunsAux] at hr
  | cons b rest ih =>
      intro c r hr
      cases b with
      | true => exact ih (c + 1) r hr
      | false =>
          by_cases hc : c < m
          · rw [show minConsecutiveEmit m c (false :: rest) =
                  List.replicate c false ++ false :: minConsecutiveEmit m 0 rest by
                    simp [minConsecutiveEmit, hc]] at hr
            rw [closedRunsAux_replicate_false] at hr
            exact ih 0 r hr
          · rw [show minConsecutiveEmit m c (false :: rest) =
                  List.replicate c true ++ false :: minConsecutiveEmit m 0 rest by
                    simp [minConsecutiveEmit, hc]] at hr
            rw [closedRunsAux_replicate_true] at hr
            simp only [Nat.zero_add] at hr
            cases c with
            | zero =>
                simp only [closedRunsAux] at hr
                exact ih 0 r hr
            | succ n =>
                simp only [closedRunsAux, List.mem_cons] at hr
                rcases hr with rfl | hr
                · omega
                · exact ih 0 r hr

/-! ### Pointwise domination: the pass only clears flags -/

theorem forall₂_replicate_false_true (n : Nat) :
    List.Forall₂ (fun a b : Bool => a = true → b = true)
      (List.replicate n false) (List.replicate n true) := by
  induction n with
  | zero => simp only [List.replicate_zero]; constructor
  | succ k ih =>
      simp only [List.replicate_succ]
      exact List.Forall₂.cons (by simp) ih

theorem replicate_append_cons_comm (c : Nat) (rest : List Bool) :
    List.replicate c true ++ true :: rest = true :: (List.replicate c true ++ rest) := by
  have h1 : List.replicate c true ++ true :: rest =
      (List.replicate c true ++ [true]) ++ rest := by simp
  rw [h1, ← List.replicate_succ', List.replicate_succ, List.cons_append]

theorem emit_forall₂_le (m : Nat) :
    ∀ (l : List Bool) (c : Nat),
      List.Forall₂ (fun a b => a = true → b = true)
        (minConsecutiveEmit m c l) (List.replicate c true ++ l) := by
  intro l
  induction l with
  | nil =>
      intro c
      simp only [minConsecutiveEmit, List.append_nil]
      exact List.forall₂_same.mpr (fun x _ h => h)
  | cons b rest ih =>
      intro c
      cases b with
      | true =>
          have h : List.replicate c true ++ true :: rest =
              List.replicate (c + 1) true ++ rest := by
            rw [replicate_append_cons_comm, List.replicate_succ, List.cons_append]
          rw [show minConsecutiveEmit m c (true :: rest) =
                minConsecutiveEmit m (c + 1) rest by simp [minConsecutiveEmit], h]
          exact ih (c + 1)
      | false =>
          simp only [minConsecutiveEmit]
          apply List.rel_append
          · by_cases hc : c < m
            · rw [if_pos hc]
              exact forall₂_replicate_false_true c
            · rw [if_neg hc]
              exact List.forall₂_same.mpr (fun x _ h => h)
          · exact List.Forall₂.cons (fun h => h) (by simpa using ih 0)

/-- Shared helper: `_min_consecutive_cycles` never turns a flag on, pointwise. -/
theorem min_consecutive_cycles_le (l : List Bool) (m : Nat) :
    List.Forall₂ (fun a b => a = true → b = true) (min_consecutive_cycles l m) l := by
  rw [min_consecutive_cycles_eq_emit]
  simpa using emit_forall₂_le m l 0

theorem min_consecutive_cycles_length (l : List Bool) (m : Nat) :
    (min_consecutive_cycles l m).length = l.length :=
  (min_consecutive_cycles_le l m).length_eq

/-! ### Boundary flags and the minimum-run pass -/

/-- Shared helper: positions that carry `false` going into
`_min_consecutive_cycles` still carry `false` coming out. -/
theorem min_consecutive_cycles_false_stable (l : List Bool) (m i : Nat)
    (hi : i < l.length) (hfalse : l[i] = false)
    (hi' : i < (min_consecutive_cycles l m).length) :
    (min_consecutive_cycles l m)[i] = false := by
  have hle := min_consecutive_cycles_le l m
  have himp := hle.get hi' hi
  cases hout : (min_consecutive_cycles l m)[i] with
  | false => rfl
  | true =>
      exfalso
      have hl : l[i] = true := by
        apply himp
        simpa [List.get_eq_getElem] using hout
      rw [hfalse] at hl
      exact Bool.noConfusion hl

/-- Shared helper: forcing index `0` off, appending a terminator, running the
minimum-run pass and truncating back leaves the first flag `false`. -/
theorem take_mcc_head_false (base : List Bool) (m n : Nat) (hn : 0 < n)
    (hbn : n ≤ base.length) :
    ((min_consecutive_cycles (base.set 0 false ++ [false]) m).take n).head? = some false := by
  have hb0 : 0 < base.length := by omega
  have hfl : (base.set 0 false ++ [false]).length = base.length + 1 := by simp
  have h0 : (base.set 0 false ++ [false])[0]? = some false := by
    rw [List.getElem?_append, if_pos (by simp; omega)]
    simp [List.getElem?_set_self', List.getElem?_eq_getElem hb0]
  have holen : (min_consecutive_cycles (base.set 0 false ++ [false]) m).length =
      base.length + 1 := by
    rw [min_consecutive_cycles_length, hfl]
  have hfalse : (base.set 0 false ++ [false])[0] = false := by
    rw [List.getElem?_eq_getElem (by omega)] at h0
    exact Option.some.inj h0
  have hout0 : (min_consecutive_cycles (base.set 0 false ++ [false]) m)[0] = false :=
    min_consecutive_cycles_false_stable _ m 0 (by omega) hfalse (by omega)
  rw [List.head?_eq_getElem?, List.getElem?_take, if_pos hn,
    List.getElem?_eq_getElem (by omega), hout0]

/-! ### Claim theorems for the burst classifier -/

/-- The first output flag of `detect_bursts_cycles` is always `false` on a
non-empty table: label `0` exists in the index, so `is_burst[0] = False` does
write the first cycle, and the minimum-run pass only clears flags. -/
theorem detect_bursts_cycles_first_flag_false {α : Type} (df : DfFeatures α)
    (amp_fraction_threshold amp_consistency_threshold
      period_consistency_threshold monotonicity_threshold : ℚ)
    (min_n_cycles : Nat) (h : df.rows ≠ []) :
    (((detect_bursts_cycles df amp_fraction_threshold amp_consistency_threshold
        period_consistency_threshold monotonicity_threshold
        min_n_cycles).is_burst).getD []).head? = some false := by
  have hn : 0 < df.rows.length := List.length_pos.mpr h
  apply take_mcc_head_false _ min_n_cycles _ hn
  rw [List.length_map]

/-- Claim C2 fails on the code: `is_burst[-1] = False` does not clear the
last cycle.  The Series carries the table's integer index, on which `-1` is
not a label and integers have no positional fallback, so per pandas
setting-with-enlargement semantics the statement appends a phantom `False`
entry under label `-1`; the phantom only terminates the run scan of
`_min_consecutive_cycles` and is dropped by the index alignment of the column
assignment.  A qualifying run that reaches the end of the table therefore
leaves the last cycle marked as burst: five cycles whose four measures all
exceed their thresholds, with `min_n_cycles = 3`, yield
`[false, true, true, true, true]`, while the claim (and the function's own
Notes on the boundary policy) require the last flag to be `false`. -/
theorem claim_C2_last_cycle_not_forced_off :
    (detect_bursts_cycles
        ({ rows := List.replicate 5 ⟨1, 1, 1, 1, 1, ()⟩, is_burst := none } : DfFeatures Unit)
        0 0 0 0 3).is_burst = some [false, true, true, true, true] := by
  decide

/-- Claim C3 fails on the code as stated: `_min_consecutive_cycles` does not
clear a short trailing run, so an output can contain a maximal true-run of
length between 1 and `min_n_cycles - 1`.  Concretely, the candidate sequence
`[True]` with minimum 3 is returned unchanged. -/
theorem claim_C3_counterexample :
    ¬ (∀ r ∈ trueRuns (min_consecutive_cycles [true] 3), 3 ≤ r) := by
  decide

/-- Claim C3 as amended: the minimum-run post-processing clears every maximal
run of consecutive `true` flags that is terminated by a `false` flag and whose
length is less than `min_n_cycles`; a short trailing run that ends at the end
of the sequence is left unchanged.  Hence every maximal true-run in the output
that is terminated by a `false` flag has length at least `min_n_cycles`. -/
theorem claim_C3_amended_min_run (l : List Bool) (m r : Nat)
    (hr : r ∈ closedRuns (min_consecutive_cycles l m)) : m ≤ r := by
  rw [min_consecutive_cycles_eq_emit] at hr
  exact closedRuns_emit_ge m l 0 r hr

/-- Witness for the amended C3 at a concrete sequence. -/
theorem claim_C3_amended_min_run_witness :
    2 ∈ closedRuns (min_consecutive_cycles [true, true, false] 2) ∧ 2 ≤ 2 :=
  ⟨by decide, claim_C3_amended_min_run [true, true, false] 2 2 (by decide)⟩

/-- Claim C9: the minimum-run post-processing only ever flips candidate flags
from `true` to `false`: the output has the same length as the input and is
pointwise below it (an output flag can be `true` only where the input flag
was `true`). -/
theorem claim_C9_only_clears (l : List Bool) (m : Nat) :
    (min_consecutive_cycles l m).length = l.length ∧
      List.Forall₂ (fun a b => a = true → b = true) (min_consecutive_cycles l m) l :=
  ⟨min_consecutive_cycles_length l m, min_consecutive_cycles_le l m⟩

/-! ### Claim theorems for the dimensional reshaper and the dispatcher -/

/-- Claim C1 names behavior the code does not have: for a group with inner
dimension `S = 1`, `_reshape_df` loses the last flat result instead of
inverting the flatten.  At the group `[[0], [1]]` (shape `G = 2`, `S = 1`,
elements standing for per-signal results), refolding the flattened group
yields `[[0]]`, not the original group: `max_idx = range(1, 2, 1) = [1]` has
one element while `min_idx = range(0, 2, 1) = [0, 1]` has two, and the `zip`
truncation drops the chunk that should hold the flat element at index 1. -/
theorem claim_C1_refold_drops_last_when_inner_dim_one :
    reshape_df (List.flatten ([[0], [1]] : List (List Nat)))
        (dim1 ([[0], [1]] : List (List Nat))) = [[0]] ∧
      reshape_df (List.flatten ([[0], [1]] : List (List Nat)))
        (dim1 ([[0], [1]] : List (List Nat))) ≠ [[0], [1]] := by
  decide

theorem length_flatten_rect {β : Type} (s : Nat) :
    ∀ (l : List (List β)), (∀ row ∈ l, row.length = s) → l.flatten.length = l.length * s := by
  intro l
  induction l with
  | nil => intro _; simp
  | cons row rest ih =>
      intro h
      have hrow : row.length = s := h row (List.mem_cons_self _ _)
      have hrest := ih (fun r hr => h r (List.mem_cons_of_mem _ hr))
      rw [List.flatten_cons, List.length_append, hrow, hrest, List.length_cons]
      ring

/-- Slicing a rectangular flattened group at `[S*g : S*(g+1)]` recovers chunk `g`. -/
theorem flatten_drop_take_rect {β : Type} (S : Nat) :
    ∀ (group : List (List β)) (g : Nat), (∀ row ∈ group, row.length = S) →
      ∀ (hg : g < group.length),
      (group.flatten.drop (S * g)).take S = group[g] := by
  intro group
  induction group with
  | nil => intro g _ hg; cases hg
  | cons row rest ih =>
      intro g hrect hg
      have hrow : row.length = S := hrect row (List.mem_cons_self _ _)
      cases g with
      | zero =>
          simp only [Nat.mul_zero, List.drop_zero, List.flatten_cons]
          rw [← hrow, List.take_left]
          simp
      | succ g' =>
          have hstep : S * (g' + 1) = row.length + S * g' := by rw [hrow]; ring
          simp only [List.flatten_cons]
          rw [hstep, List.drop_append,
            ih g' (fun r hr => hrect r (List.mem_cons_of_mem _ hr)) (by simpa using hg)]
          simp

/-- For inner dimension `S ≥ 2` the refold is the exact inverse of the
flatten on rectangular groups — so the inversion claim fails only at `S = 1`. -/
theorem reshape_df_inverts_flatten_of_two_le {β : Type} (group : List (List β)) (S : Nat)
    (hS : 2 ≤ S) (hrect : ∀ row ∈ group, row.length = S) :
    reshape_df group.flatten S = group := by
  have hS1 : 0 < S := by omega
  have hlen : group.flatten.length = group.length * S := length_flatten_rect S group hrect
  rcases Nat.eq_zero_or_pos group.length with hG | hG
  · have hgroup : group = [] := List.length_eq_zero.mp hG
    subst hgroup
    have hc : (0 - 0 + S - 1) / S = 0 := Nat.div_eq_of_lt (by omega)
    have hc2 : (S - 1) / S = 0 := Nat.div_eq_of_lt (by omega)
    simp [reshape_df, pyRange, hc, hc2]
  · have hGS2 : 2 * group.length ≤ group.length * S := by
      rw [Nat.mul_comm 2 group.length]
      exact Nat.mul_le_mul_left group.length hS
  -- the two Python ranges, with their element counts computed
    have hminc : (group.flatten.length - 0 + S - 1) / S = group.length := by
      rw [hlen]
      have h1 : group.length * S - 0 + S - 1 = (S - 1) + group.length * S := by omega
      rw [h1, Nat.add_mul_div_right _ _ hS1, Nat.div_eq_of_lt (by omega)]
      omega
    have hmaxc : (group.flatten.length * S - S + S - 1) / S = group.length * S - 1 := by
      rw [hlen]
      have hm : S ≤ group.length * S := Nat.le_mul_of_pos_left S hG
      have hm2 : group.length * S ≤ group.length * S * S :=
        Nat.le_mul_of_pos_right (group.length * S) hS1
      have h1 : group.length * S * S - S + S - 1 =
          (S - 1) + (group.length * S - 1) * S := by
        rw [Nat.sub_one_mul]
        omega
      rw [h1, Nat.add_mul_div_right _ _ hS1, Nat.div_eq_of_lt (by omega)]
      omega
    have hzlen : ((pyRange 0 group.flatten.length S).zip
        (pyRange S (group.flatten.length * S) S)).length = group.length := by
      rw [List.length_zip, pyRange, pyRange, List.length_range', List.length_range',
        hminc, hmaxc]
      omega
    apply List.ext_getElem?
    intro g
    by_cases hgG : g < group.length
    · have hmap : g < (((pyRange 0 group.flatten.length S).zip
          (pyRange S (group.flatten.length * S) S)).map
            fun p => pySlice group.flatten p.1 p.2).length := by
        rw [List.length_map, hzlen]; exact hgG
      simp only [reshape_df]
      rw [List.getElem?_eq_getElem hmap, List.getElem?_eq_getElem hgG]
      congr 1
      rw [List.getElem_map, List.getElem_zip]
      simp only [pyRange]
      rw [List.getElem_range', List.getElem_range']
      simp only [pySlice, Nat.zero_add]
      have hsub : S + S * g - S * g = S := by omega
      rw [hsub]
      exact flatten_drop_take_rect S group g hrect hgG
    · simp only [reshape_df]
      rw [List.getElem?_eq_none (by rw [List.length_map, hzlen]; omega),
        List.getElem?_eq_none (by omega : group.length ≤ g)]

theorem runSched_length {A B : Type} (f : A → B) (tasks : List A) :
    ∀ (sched : List Nat) (slots : List (Option B)),
      (runSched f tasks sched slots).length = slots.length := by
  intro sched
  induction sched with
  | nil => intro slots; rfl
  | cons j rest ih =>
      intro slots
      rw [runSched, ih, List.length_set]

theorem runSched_getElem?_not_mem {A B : Type} (f : A → B) (tasks : List A) :
    ∀ (sched : List Nat) (slots : List (Option B)) (i : Nat), i ∉ sched →
      (runSched f tasks sched slots)[i]? = slots[i]? := by
  intro sched
  induction sched with
  | nil => intro slots i _; rfl
  | cons j rest ih =>
      intro slots i hmem
      rw [runSched, ih _ i (fun h => hmem (List.mem_cons_of_mem j h)),
        List.getElem?_set_ne (fun h => hmem (by rw [← h]; exact List.mem_cons_self j rest))]

theorem runSched_getElem?_mem {A B : Type} (f : A → B) (tasks : List A) :
    ∀ (sched : List Nat) (slots : List (Option B)) (i : Nat), i ∈ sched →
      i < slots.length →
      (runSched f tasks sched slots)[i]? = some (tasks[i]?.map f) := by
  intro sched
  induction sched with
  | nil => intro slots i hmem _; cases hmem
  | cons j rest ih =>
      intro slots i hmem hlt
      rw [runSched]
      by_cases hrest : i ∈ rest
      · exact ih _ i hrest (by rw [List.length_set]; exact hlt)
      · have hij : i = j := by
          rcases List.mem_cons.mp hmem with h | h
          · exact h
          · exact absurd h hrest
        subst hij
        rw [runSched_getElem?_not_mem f tasks rest _ i hrest]
        simp [List.getElem?_set_self', List.getElem?_eq_getElem hlt]

/-- Claim C5: the pool's ordered-collection dispatch returns, for every
completion order (any permutation of the submission indices), exactly the
sequential in-order map of the routine over the tasks: the result at index
`i` is the routine applied to task `i`, irrespective of completion order. -/
theorem claim_C5_dispatch_eq_sequential {A B : Type} (f : A → B) (tasks : List A)
    (sched : List Nat) (hperm : sched.Perm (List.range tasks.length)) :
    dispatchOrdered f tasks sched = (tasks.map f).map some := by
  apply List.ext_getElem?
  intro i
  by_cases hi : i < tasks.length
  · have hmem : i ∈ sched := hperm.mem_iff.mpr (List.mem_range.mpr hi)
    rw [dispatchOrdered, runSched_getElem?_mem f tasks sched _ i hmem
      (by rw [List.length_replicate]; exact hi)]
    simp [List.getElem?_map, List.getElem?_eq_getElem hi]
  · have hmem : i ∉ sched := fun h => hi (List.mem_range.mp (hperm.mem_iff.mp h))
    rw [dispatchOrdered, runSched_getElem?_not_mem f tasks sched _ i hmem]
    rw [List.getElem?_replicate, if_neg hi, List.getElem?_eq_none (by simpa using hi)]

/-- Witness for C5: two tasks completed in reversed order still yield the
sequential results in submission order. -/
theorem claim_C5_dispatch_eq_sequential_witness :
    ([1, 0] : List Nat).Perm (List.range 2) ∧
      dispatchOrdered (fun n : Nat => n + 1) [10, 20] [1, 0] =
        (([10, 20] : List Nat).map (fun n => n + 1)).map some :=
  ⟨by decide, claim_C5_dispatch_eq_sequential (fun n => n + 1) [10, 20] [1, 0] (by decide)⟩

theorem broadcast1d_cons {K : Type} (k : K) (rest : List K) (s : Nat) :
    broadcast1d (k :: rest) s = List.replicate s k ++ broadcast1d rest s := by
  simp [broadcast1d]

theorem broadcast1d_length {K : Type} (kwargs : List K) (s : Nat) :
    (broadcast1d kwargs s).length = kwargs.length * s := by
  induction kwargs with
  | nil => simp [broadcast1d]
  | cons k rest ih =>
      rw [broadcast1d_cons, List.length_append, List.length_replicate, ih, List.length_cons]
      ring

/-- Claim C6: a 1-D override aligned with the outer dimension is replicated
across the inner signal count: in the flat per-signal configuration sequence
produced for `compute_features_2d`, the entry at flat index `g * S + s` is the
`g`-th override. -/
theorem claim_C6_outer_override_replication {K : Type} (kwargs : List K) (s g i : Nat)
    (hg : g < kwargs.length) (hi : i < s) :
    (broadcast1d kwargs s)[g * s + i]? = kwargs[g]? := by
  induction kwargs generalizing g with
  | nil => cases hg
  | cons k rest ih =>
      cases g with
      | zero =>
          rw [broadcast1d_cons]
          simp only [Nat.zero_mul, Nat.zero_add]
          rw [List.getElem?_append, if_pos (by rw [List.length_replicate]; exact hi),
            List.getElem?_replicate, if_pos hi]
          simp
      | succ g' =>
          rw [broadcast1d_cons]
          have hidx : (g' + 1) * s + i = s + (g' * s + i) := by ring
          rw [hidx, List.getElem?_append, if_neg (by rw [List.length_replicate]; omega)]
          simp only [List.length_replicate, Nat.add_sub_cancel_left]
          rw [ih g' (by simpa using hg)]
          simp

/-- Witness for C6 at a concrete override list and shape. -/
theorem claim_C6_outer_override_replication_witness :
    (1 < ([10, 20] : List Nat).length) ∧ (1 < 2) ∧
      (broadcast1d ([10, 20] : List Nat) 2)[1 * 2 + 1]? = ([10, 20] : List Nat)[1]? :=
  ⟨by decide, by decide,
    claim_C6_outer_override_replication [10, 20] 2 1 1 (by decide) (by decide)⟩

/-! ### Claim theorems for validation, stripping and mutation -/

theorem stripReturnSamples_key_not_mem {V : Type} (d : Kwargs V) :
    "return_samples" ∉ (stripReturnSamples d).map Prod.fst := by
  intro h
  rcases List.mem_map.mp h with ⟨p, hp, hfst⟩
  have hmem := (List.mem_filter.mp hp).2
  simp only [ne_eq, decide_not, Bool.not_eq_eq_eq_not, Bool.not_true,
    decide_eq_false_iff_not] at hmem
  exact hmem hfst

theorem except_isOk_map {E A B : Type} (f : A → B) (e : Except E A) :
    (e.map f).isOk = e.isOk := by
  cases e <;> rfl

/-- Claim C4: the two orchestration entry points raise the shape-mismatch
error exactly when a list-shaped override disagrees with the signal
collection's shape in some dimension (list length vs signal count for 2-D;
1-D length vs group count, or 2-D shape vs the first two dimensions, for
3-D, on rectangular inputs), and on a mismatch no worker call is made: the
list of arguments handed to the feature-extraction routine is empty. -/
theorem claim_C4_shape_validation_failfast {σ ρ V : Type}
    (compute : σ → Bool → Kwargs V → ρ) (sigs2 : List σ) (rs : Bool) (kw2 : Kwargs2d V)
    (sigs3 : List (List σ)) (kw3 : Kwargs3d V)
    (hrect : ∀ row ∈ sigs3, row.length = dim1 sigs3)
    (hkrect : ∀ kw2d, kw3 = some (Sum.inr (Sum.inr kw2d)) →
      ∀ row ∈ kw2d, row.length = dim1 kw2d) :
    ((compute_features_2d compute sigs2 rs kw2).result.isOk = false ↔
      ∃ kwlist, kw2 = some (Sum.inr kwlist) ∧ kwlist.length ≠ sigs2.length) ∧
    ((compute_features_2d compute sigs2 rs kw2).result.isOk = false →
      (compute_features_2d compute sigs2 rs kw2).calls = []) ∧
    ((compute_features_3d compute sigs3 rs kw3).result.isOk = false ↔
      (∃ kw1, kw3 = some (Sum.inr (Sum.inl kw1)) ∧ kw1.length ≠ sigs3.length) ∨
      (∃ kw2d, kw3 = some (Sum.inr (Sum.inr kw2d)) ∧
        (kw2d.length ≠ sigs3.length ∨ dim1 kw2d ≠ dim1 sigs3))) ∧
    ((compute_features_3d compute sigs3 rs kw3).result.isOk = false →
      (compute_features_3d compute sigs3 rs kw3).calls = []) := by
  have h2d : ∀ (sigsf : List σ) (flat : List (Kwargs V)),
      flat.length = sigsf.length →
      (compute_features_2d compute sigsf rs (some (Sum.inr flat))).result.isOk = true := by
    intro sigsf flat hlen
    simp [compute_features_2d, hlen, Except.isOk, Except.toBool]
  have hkw1ok : ∀ kw1 : List (Kwargs V), kw1.length = sigs3.length →
      (compute_features_2d compute sigs3.flatten rs
        (some (Sum.inr (broadcast1d kw1 (dim1 sigs3))))).result.isOk = true := by
    intro kw1 h
    apply h2d
    rw [broadcast1d_length, length_flatten_rect (dim1 sigs3) sigs3 hrect, h]
  refine ⟨?_, ?_, ?_, ?_⟩
  · rcases kw2 with _ | (d | kwlist)
    · simp [compute_features_2d, Except.isOk, Except.toBool]
    · simp [compute_features_2d, Except.isOk, Except.toBool]
    · by_cases h : kwlist.length = sigs2.length
      · simp [compute_features_2d, h, Except.isOk, Except.toBool]
      · simp [compute_features_2d, h, Except.isOk, Except.toBool]
  · rcases kw2 with _ | (d | kwlist)
    · simp [compute_features_2d, Except.isOk, Except.toBool]
    · simp [compute_features_2d, Except.isOk, Except.toBool]
    · by_cases h : kwlist.length = sigs2.length
      · simp [compute_features_2d, h, Except.isOk, Except.toBool]
      · simp [compute_features_2d, h]
  · rcases kw3 with _ | (d | (kw1 | kw2d))
    · simp [compute_features_3d, compute_features_2d, except_isOk_map,
        Except.isOk, Except.toBool, Except.map]
    · simp [compute_features_3d, compute_features_2d, except_isOk_map,
        Except.isOk, Except.toBool, Except.map]
    · by_cases h : kw1.length = sigs3.length
      · have hok := hkw1ok kw1 h
        have hcond : ¬ kw1.length ≠ sigs3.length := by simp [h]
        simp [compute_features_3d, if_neg hcond, except_isOk_map, hok, h]
      · simp [compute_features_3d, if_pos h, Except.isOk, Except.toBool, h]
    · by_cases h : kw2d.length ≠ sigs3.length ∨ dim1 kw2d ≠ dim1 sigs3
      · simp only [compute_features_3d, if_pos h]
        simp [Except.isOk, Except.toBool, h]
      · push_neg at h
        obtain ⟨hlen, hdim⟩ := h
        have hrows := hkrect kw2d rfl
        have hflat : kw2d.flatten.length = sigs3.flatten.length := by
          rw [length_flatten_rect (dim1 kw2d) kw2d hrows,
            length_flatten_rect (dim1 sigs3) sigs3 hrect, hlen, hdim]
        have hok := h2d sigs3.flatten kw2d.flatten hflat
        have hcond : ¬ (kw2d.length ≠ sigs3.length ∨ dim1 kw2d ≠ dim1 sigs3) := by
          simp [hlen, hdim]
        simp [compute_features_3d, if_neg hcond, except_isOk_map, hok, hlen, hdim]
  · rcases kw3 with _ | (d | (kw1 | kw2d))
    · simp [compute_features_3d, compute_features_2d, except_isOk_map,
        Except.isOk, Except.toBool, Except.map]
    · simp [compute_features_3d, compute_features_2d, except_isOk_map,
        Except.isOk, Except.toBool, Except.map]
    · by_cases h : kw1.length = sigs3.length
      · have hok := hkw1ok kw1 h
        have hcond : ¬ kw1.length ≠ sigs3.length := by simp [h]
        simp [compute_features_3d, if_neg hcond, except_isOk_map, hok]
      · simp [compute_features_3d, if_pos h]
    · by_cases h : kw2d.length ≠ sigs3.length ∨ dim1 kw2d ≠ dim1 sigs3
      · simp [compute_features_3d, if_pos h]
      · push_neg at h
        obtain ⟨hlen, hdim⟩ := h
        have hrows := hkrect kw2d rfl
        have hflat : kw2d.flatten.length = sigs3.flatten.length := by
          rw [length_flatten_rect (dim1 kw2d) kw2d hrows,
            length_flatten_rect (dim1 sigs3) sigs3 hrect, hlen, hdim]
        have hok := h2d sigs3.flatten kw2d.flatten hflat
        have hcond : ¬ (kw2d.length ≠ sigs3.length ∨ dim1 kw2d ≠ dim1 sigs3) := by
          simp [hlen, hdim]
        simp [compute_features_3d, if_neg hcond, except_isOk_map, hok]

/-- Witness for C4: a 2-D call with a length-1 override list against two
signals and a 3-D call with a length-1 1-D override list against two groups
both fail the validation; the hypotheses are discharged at the concrete
rectangular input. -/
theorem claim_C4_shape_validation_failfast_witness :
    (∀ row ∈ ([[0], [1]] : List (List Nat)), row.length = dim1 ([[0], [1]] : List (List Nat))) ∧
    ((compute_features_2d (fun (_ : Nat) (_ : Bool) (_ : Kwargs Nat) => (0 : Nat))
        [0, 1] true (some (Sum.inr [[]]))).result.isOk = false ↔
      ∃ kwlist, (some (Sum.inr [[]]) : Kwargs2d Nat) = some (Sum.inr kwlist) ∧
        kwlist.length ≠ ([0, 1] : List Nat).length) ∧
    ((compute_features_2d (fun (_ : Nat) (_ : Bool) (_ : Kwargs Nat) => (0 : Nat))
        [0, 1] true (some (Sum.inr [[]]))).result.isOk = false →
      (compute_features_2d (fun (_ : Nat) (_ : Bool) (_ : Kwargs Nat) => (0 : Nat))
        [0, 1] true (some (Sum.inr [[]]))).calls = []) ∧
    ((compute_features_3d (fun (_ : Nat) (_ : Bool) (_ : Kwargs Nat) => (0 : Nat))
        [[0], [1]] true (some (Sum.inr (Sum.inl [[]])))).result.isOk = false ↔
      (∃ kw1, (some (Sum.inr (Sum.inl [[]])) : Kwargs3d Nat) = some (Sum.inr (Sum.inl kw1)) ∧
        kw1.length ≠ ([[0], [1]] : List (List Nat)).length) ∨
      (∃ kw2d, (some (Sum.inr (Sum.inl [[]])) : Kwargs3d Nat) = some (Sum.inr (Sum.inr kw2d)) ∧
        (kw2d.length ≠ ([[0], [1]] : List (List Nat)).length ∨
          dim1 kw2d ≠ dim1 ([[0], [1]] : List (List Nat))))) ∧
    ((compute_features_3d (fun (_ : Nat) (_ : Bool) (_ : Kwargs Nat) => (0 : Nat))
        [[0], [1]] true (some (Sum.inr (Sum.inl [[]])))).result.isOk = false →
      (compute_features_3d (fun (_ : Nat) (_ : Bool) (_ : Kwargs Nat) => (0 : Nat))
        [[0], [1]] true (some (Sum.inr (Sum.inl [[]])))).calls = []) :=
  ⟨by decide,
    claim_C4_shape_validation_failfast (fun _ _ _ => 0) [0, 1] true (some (Sum.inr [[]]))
      [[0], [1]] (some (Sum.inr (Sum.inl [[]]))) (by decide)
      (fun kw2d h => by simp at h)⟩

/-- Claim C7: every argument pair actually handed to the feature-extraction
routine by `compute_features_2d` carries the caller-level `return_samples`
flag, and its per-signal mapping no longer contains the reserved
`return_samples` key (it was stripped before dispatch), so an embedded
per-mapping value is never passed. -/
theorem claim_C7_return_samples_flag_authority {σ ρ V : Type}
    (compute : σ → Bool → Kwargs V → ρ) (sigs : List σ) (return_samples : Bool)
    (kw : Kwargs2d V) (call : Bool × Kwargs V)
    (hcall : call ∈ (compute_features_2d compute sigs return_samples kw).calls) :
    call.1 = return_samples ∧ "return_samples" ∉ call.2.map Prod.fst := by
  rcases kw with _ | (d | kwlist)
  · simp only [compute_features_2d, List.mem_map] at hcall
    obtain ⟨s, _, rfl⟩ := hcall
    exact ⟨rfl, by simp⟩
  · simp only [compute_features_2d, List.mem_map] at hcall
    obtain ⟨s, _, rfl⟩ := hcall
    exact ⟨rfl, stripReturnSamples_key_not_mem d⟩
  · by_cases h : kwlist.length = sigs.length
    · simp only [compute_features_2d, h, ne_eq, not_true_eq_false, if_false,
        List.mem_map] at hcall
      obtain ⟨p, hp, rfl⟩ := hcall
      refine ⟨rfl, ?_⟩
      have hp2 := (List.of_mem_zip hp).2
      rcases List.mem_map.mp hp2 with ⟨d, _, hd⟩
      rw [show (return_samples, p.2).2 = p.2 from rfl, ← hd]
      exact stripReturnSamples_key_not_mem d
    · simp [compute_features_2d, h] at hcall

/-- Witness for C7: a call whose mapping originally carried `return_samples`
is dispatched with the key removed and the caller-level flag. -/
theorem claim_C7_return_samples_flag_authority_witness :
    ((true, ([] : Kwargs Nat)) ∈
      (compute_features_2d (fun (_ : Nat) (_ : Bool) (_ : Kwargs Nat) => (0 : Nat))
        [0] true (some (Sum.inl [("return_samples", 0)]))).calls) ∧
    ((true, ([] : Kwargs Nat)).1 = true ∧
      "return_samples" ∉ ((true, ([] : Kwargs Nat)).2.map Prod.fst)) :=
  ⟨by decide,
    claim_C7_return_samples_flag_authority (fun _ _ _ => 0) [0] true
      (some (Sum.inl [("return_samples", 0)])) (true, []) (by decide)⟩

/-- Claim C8 fails on the code: the call mutates the caller's configuration
mapping.  A single mapping containing the reserved `return_samples` key is
not left unchanged by `compute_features_2d`: the key is popped in place. -/
theorem claim_C8_counterexample :
    (compute_features_2d (fun (_ : Nat) (_ : Bool) (_ : Kwargs Nat) => (0 : Nat))
        [0] true (some (Sum.inl [("return_samples", 0)]))).kwargsAfter ≠
      some (Sum.inl [("return_samples", 0)]) := by
  decide

/-- Claim C8 as amended: the signal collection is never modified, and the
caller-supplied ConfigOverride is modified exactly by the in-place removal of
the reserved `return_samples` key from every mapping it contains — performed
only on calls that pass validation (on a shape-mismatch error the override is
untouched, the error being raised before the pops). -/
theorem claim_C8_amended_config_mutation {σ ρ V : Type}
    (compute : σ → Bool → Kwargs V → ρ) (sigs2 : List σ) (rs : Bool) (kw2 : Kwargs2d V)
    (sigs3 : List (List σ)) (kw3 : Kwargs3d V) :
    ((compute_features_2d compute sigs2 rs kw2).sigsAfter = sigs2) ∧
    ((compute_features_2d compute sigs2 rs kw2).kwargsAfter =
      if (compute_features_2d compute sigs2 rs kw2).result.isOk then
        stripKwargs2d kw2 else kw2) ∧
    ((compute_features_3d compute sigs3 rs kw3).sigsAfter = sigs3) ∧
    ((compute_features_3d compute sigs3 rs kw3).kwargsAfter =
      if (compute_features_3d compute sigs3 rs kw3).result.isOk then
        stripKwargs3d kw3 else kw3) := by
  refine ⟨?_, ?_, ?_, ?_⟩
  · rcases kw2 with _ | (d | kwlist)
    · rfl
    · rfl
    · by_cases h : kwlist.length = sigs2.length
      · simp [compute_features_2d, h]
      · simp [compute_features_2d, h]
  · rcases kw2 with _ | (d | kwlist)
    · simp [compute_features_2d, stripKwargs2d, Except.isOk, Except.toBool]
    · simp [compute_features_2d, stripKwargs2d, Except.isOk, Except.toBool]
    · by_cases h : kwlist.length = sigs2.length
      · simp [compute_features_2d, h, stripKwargs2d, Except.isOk, Except.toBool]
      · simp [compute_features_2d, h, stripKwargs2d, Except.isOk, Except.toBool]
  · rcases kw3 with _ | (d | (kw1 | kw2d))
    · rfl
    · rfl
    · by_cases h : kw1.length = sigs3.length
      · have hcond : ¬ kw1.length ≠ sigs3.length := by simp [h]
        simp [compute_features_3d, if_neg hcond]
      · simp [compute_features_3d, if_pos h]
    · by_cases h : kw2d.length ≠ sigs3.length ∨ dim1 kw2d ≠ dim1 sigs3
      · simp [compute_features_3d, if_pos h]
      · simp [compute_features_3d, if_neg h]
  · rcases kw3 with _ | (d | (kw1 | kw2d))
    · simp [compute_features_3d, compute_features_2d, stripKwargs3d, except_isOk_map,
        Except.isOk, Except.toBool, Except.map]
    · simp [compute_features_3d, compute_features_2d, stripKwargs3d, except_isOk_map,
        Except.isOk, Except.toBool, Except.map]
    · by_cases h : kw1.length = sigs3.length
      · have hcond : ¬ kw1.length ≠ sigs3.length := by simp [h]
        simp only [compute_features_3d, if_neg hcond, except_isOk_map]
        rcases hr : (compute_features_2d compute sigs3.flatten rs
            (some (Sum.inr (broadcast1d kw1 (dim1 sigs3))))).result with e | v
        · simp [hr, Except.isOk, Except.toBool]
        · simp [hr, Except.isOk, Except.toBool, stripKwargs3d]
      · simp [compute_features_3d, if_pos h, Except.isOk, Except.toBool]
    · by_cases h : kw2d.length ≠ sigs3.length ∨ dim1 kw2d ≠ dim1 sigs3
      · simp [compute_features_3d, if_pos h, Except.isOk, Except.toBool]
      · simp only [compute_features_3d, if_neg h, except_isOk_map]
        rcases hr : (compute_features_2d compute sigs3.flatten rs
            (some (Sum.inr kw2d.flatten))).result with e | v
        · simp [hr, Except.isOk, Except.toBool]
        · simp [hr, Except.isOk, Except.toBool, stripKwargs3d]

/-- Claim C10: `detect_bursts_cycles` and `detect_bursts_amp` return the input
table with only the `is_burst` column written; the rows (every pre-existing
column and per-cycle record) are unchanged. -/
theorem claim_C10_only_is_burst_written {α : Type} (df : DfFeatures α)
    (amp_fraction_threshold amp_consistency_threshold
      period_consistency_threshold monotonicity_threshold
      burst_fraction_threshold : ℚ) (m₁ m₂ : Nat) :
    (detect_bursts_cycles df amp_fraction_threshold amp_consistency_threshold
        period_consistency_threshold monotonicity_threshold m₁ =
      { df with is_burst := some (cyclesBurstSeq df.rows amp_fraction_threshold
          amp_consistency_threshold period_consistency_threshold
          monotonicity_threshold m₁) }) ∧
    (detect_bursts_cycles df amp_fraction_threshold amp_consistency_threshold
        period_consistency_threshold monotonicity_threshold m₁).rows = df.rows ∧
    (detect_bursts_amp df burst_fraction_threshold m₂ =
      { df with is_burst := some (ampBurstSeq df.rows burst_fraction_threshold m₂) }) ∧
    (detect_bursts_amp df burst_fraction_threshold m₂).rows = df.rows :=
  ⟨rfl, rfl, rfl, rfl⟩

end Bycycle
